import Mathlib

/-!
Verification of the task-priority scheduling core of the gaia-email-libs-and-more
repository (GELAM), against its natural-language specification.

The embedding below translates, statement by statement, the `TaskPriorities`
helper class (src/js/ext/axeshim-browserbox.js, second define block), the
`append_message` simple task (src/js/imap/vanilla_tasks/append_message.js) and
the `store_flags` complex task execute (src/unnamed/part_000, first define
block).  JavaScript `Map` objects become association lists, JavaScript object
mutation becomes explicit state passing, and code paths that throw in strict
mode are modelled as explicit error results.

The vendored FibonacciHeap (GELAM js/ext/fibonacci-heap, referenced by the
RequireJS path configuration but not part of the sources here) is modelled from
the spec: a min-heap keyed by integers whose extraction breaks ties by
insertion order (FIFO), with insert, extractMinimum, decreaseKey, delete and
isEmpty.  Nodes are kept in an arena list so that node objects survive their
removal from the heap, exactly as JavaScript heap-node objects do; the maps of
`TaskPriorities` reference nodes by their arena id.
-/

set_option autoImplicit false

namespace Gelam

/-- Priority tags are plain strings, e.g. "folder-view:inbox". -/
abbrev Tag := String

/-- The priority-relevant slice of a planned simple task (WrappedTask record):
`plannedTask.priorityTags` and `plannedTask.relPriority`. -/
structure PlannedTask where
  priorityTags : List Tag
  relPriority : Option Int
  deriving DecidableEq

/-- A task thing is either a WrappedTask (no `type` on the root, so
`!taskThing.type` is truthy) or a TaskMarker (flat record with a `type`). -/
inductive TaskThing where
  | task (id : Nat) (plannedTask : PlannedTask)
  | marker (id : Nat) (type : String) (priorityTags : List Tag) (relPriority : Option Int)
  deriving DecidableEq

namespace TaskThing

/-- `taskThing.id` : both shapes carry an id. -/
def id : TaskThing → Nat
  | task i _ => i
  | marker i _ _ _ => i

/-- `isTask ? taskThing.plannedTask.priorityTags : taskThing.priorityTags`. -/
def effectiveTags : TaskThing → List Tag
  | task _ p => p.priorityTags
  | marker _ _ tags _ => tags

/-- `isTask ? taskThing.plannedTask.relPriority : taskThing.relPriority`
(the `|| 0` default is applied at the use site). -/
def relPri : TaskThing → Option Int
  | task _ p => p.relPriority
  | marker _ _ _ r => r

end TaskThing

/-- JavaScript `Map.prototype.get`, on an association list. -/
def mapGet? {α β : Type} [DecidableEq α] (m : List (α × β)) (k : α) : Option β :=
  (m.find? (fun p => decide (p.1 = k))).map (fun p => p.2)

/-- JavaScript `Map.prototype.set`: replaces the value in place when the key is
present (keeping its position), otherwise appends the entry. -/
def mapSet {α β : Type} [DecidableEq α] (m : List (α × β)) (k : α) (v : β) : List (α × β) :=
  if (m.find? (fun p => decide (p.1 = k))).isSome then
    m.map (fun p => if p.1 = k then (k, v) else p)
  else
    m ++ [(k, v)]

/-- JavaScript `Map.prototype.delete`. -/
def mapDel {α β : Type} [DecidableEq α] (m : List (α × β)) (k : α) : List (α × β) :=
  m.filter (fun p => decide (p.1 ≠ k))

/-- A heap node object: arena id, current key, current value.  The arena id of
a node doubles as its insertion sequence number, since ids are handed out by an
increasing counter. -/
structure HeapNode where
  nodeId : Nat
  key : Int
  value : TaskThing
  deriving DecidableEq

/-- Modelled from the spec: the vendored FibonacciHeap (GELAM
js/ext/fibonacci-heap, not among the sources here) is a min-structure in which
lower key means higher priority and ties are broken by insertion order (FIFO).
`nodes` is the arena of every node object ever created (JavaScript node objects
persist after removal from the heap); `live` lists the arena ids of nodes
currently contained in the heap, in insertion order. -/
structure FibonacciHeap where
  nodes : List HeapNode
  live : List Nat
  nextNodeId : Nat
  deriving DecidableEq

namespace FibonacciHeap

/-- A fresh, empty heap. -/
def empty : FibonacciHeap := ⟨[], [], 0⟩

/-- Modelled from the spec: isEmpty is true when the heap holds no node. -/
def isEmpty (h : FibonacciHeap) : Bool := h.live.isEmpty

/-- Modelled from the spec: insert creates a fresh node with the given key and
value and returns it; the new node is the latest in insertion order. -/
def insert (h : FibonacciHeap) (key : Int) (value : TaskThing) : FibonacciHeap × Nat :=
  (⟨h.nodes ++ [⟨h.nextNodeId, key, value⟩], h.live ++ [h.nextNodeId], h.nextNodeId + 1⟩,
   h.nextNodeId)

/-- Dereference a node object by its arena id. -/
def node? (h : FibonacciHeap) (nid : Nat) : Option HeapNode :=
  h.nodes.find? (fun n => decide (n.nodeId = nid))

/-- Modelled from the spec: decreaseKey lowers the key of a node in place; the
node keeps its identity (and hence its insertion-order position). -/
def decreaseKey (h : FibonacciHeap) (nid : Nat) (newKey : Int) : FibonacciHeap :=
  { h with nodes := h.nodes.map (fun n => if n.nodeId = nid then { n with key := newKey } else n) }

/-- Modelled from the spec: delete removes the node from the heap; the node
object itself persists (in the arena). -/
def deleteNode (h : FibonacciHeap) (nid : Nat) : FibonacciHeap :=
  { h with live := h.live.erase nid }

/-- Assignment to the `.value` field of a node object (`priorityNode.value =
taskThing`), which in JavaScript succeeds whether or not the node is still in
the heap. -/
def setValue (h : FibonacciHeap) (nid : Nat) (v : TaskThing) : FibonacciHeap :=
  { h with nodes := h.nodes.map (fun n => if n.nodeId = nid then { n with value := v } else n) }

/-- The node objects currently contained in the heap. -/
def liveNodes (h : FibonacciHeap) : List HeapNode :=
  h.nodes.filter (fun n => h.live.contains n.nodeId)

end FibonacciHeap

/-- Lexicographic comparison on (key, insertion order): true when `n` must be
extracted before `m`. -/
def nodeBefore (n m : HeapNode) : Bool :=
  n.key < m.key || (n.key == m.key && n.nodeId < m.nodeId)

/-- The node a FIFO-tie-breaking min-heap extracts first: smallest key, and the
earliest-inserted node among those of smallest key. -/
def findMinNode : List HeapNode → Option HeapNode
  | [] => none
  | n :: rest =>
    match findMinNode rest with
    | none => some n
    | some m => if nodeBefore m n then some m else some n

/-- Modelled from the spec: extractMinimum removes and returns the minimum-key
node, FIFO among equal keys; on an empty heap it returns null (here: none). -/
def FibonacciHeap.extractMinimum (h : FibonacciHeap) : Option HeapNode × FibonacciHeap :=
  match findMinNode h.liveNodes with
  | none => (none, h)
  | some m => (some m, h.deleteNode m.nodeId)

/-- A JavaScript exception surfaced by the translated code. -/
inductive JsError
  | typeError
  | referenceError
  | operationFailed
  deriving DecidableEq

/-- State of a `TaskPriorities` instance (the underscore-prefixed fields of the
source constructor, without the underscores). -/
structure TaskPriorities where
  prioritizedTasks : FibonacciHeap
  taskIdToHeapNode : List (Nat × Nat)
  priorityTagToHeapNodes : List (Tag × List Nat)
  priorityTagsByOwner : List (String × List (Tag × Int))
  summedPriorityTags : List (Tag × Int)
  deriving DecidableEq

namespace TaskPriorities

/-- A freshly constructed TaskPriorities: empty heap, empty maps. -/
def init : TaskPriorities := ⟨FibonacciHeap.empty, [], [], [], []⟩

/-- Source: `hasTasksToExecute: function() { return
this._prioritizedTasks.isEmpty(); }`. -/
def hasTasksToExecute (s : TaskPriorities) : Bool :=
  s.prioritizedTasks.isEmpty

/-- Source: `_computePriorityForTags`, the fold of the summed boosts of the
given tags, missing entries counting as zero. -/
def computePriorityForTags (s : TaskPriorities) (priorityTags : List Tag) : Int :=
  priorityTags.foldl
    (fun priority priorityTag => priority + ((mapGet? s.summedPriorityTags priorityTag).getD 0))
    0

/-- One iteration of the `_setupTaskPriorityTracking` loop: push the node onto
the node list of one priority tag. -/
def setupTagStep (priorityNode : Nat) (s : TaskPriorities) (priorityTag : Tag) :
    TaskPriorities :=
  match mapGet? s.priorityTagToHeapNodes priorityTag with
  | some nodes =>
    { s with priorityTagToHeapNodes :=
        mapSet s.priorityTagToHeapNodes priorityTag (nodes ++ [priorityNode]) }
  | none =>
    { s with priorityTagToHeapNodes :=
        mapSet s.priorityTagToHeapNodes priorityTag [priorityNode] }

/-- Source: `_setupTaskPriorityTracking`: push the node onto the node list of
every priority tag of the task thing. -/
def setupTaskPriorityTracking (s : TaskPriorities) (taskThing : TaskThing)
    (priorityNode : Nat) : TaskPriorities :=
  taskThing.effectiveTags.foldl (setupTagStep priorityNode) s

/-- One iteration of the `_cleanupTaskPriorityTracking` loop: splice the node
out of the node list of one priority tag, deleting the list if emptied. -/
def cleanupTagStep (priorityNode : Nat) (s : TaskPriorities) (priorityTag : Tag) :
    TaskPriorities :=
  match mapGet? s.priorityTagToHeapNodes priorityTag with
  | some nodes =>
    let nodes1 := nodes.erase priorityNode
    if nodes1.isEmpty then
      { s with priorityTagToHeapNodes := mapDel s.priorityTagToHeapNodes priorityTag }
    else
      { s with priorityTagToHeapNodes := mapSet s.priorityTagToHeapNodes priorityTag nodes1 }
  | none => s

/-- Source: `_cleanupTaskPriorityTracking`: splice the node out of the node
list of every priority tag of the task thing, deleting emptied lists. -/
def cleanupTaskPriorityTracking (s : TaskPriorities) (taskThing : TaskThing)
    (priorityNode : Nat) : TaskPriorities :=
  taskThing.effectiveTags.foldl (cleanupTagStep priorityNode) s

/-- Source: `popNextAvailableTask`.  `extractMinimum()` on an empty heap
returns null, and the unguarded `priorityNode.value` on the next line is then a
TypeError; this is modelled by the error result. -/
def popNextAvailableTask (s : TaskPriorities) : Except JsError (TaskThing × TaskPriorities) :=
  match s.prioritizedTasks.extractMinimum with
  | (none, _) => Except.error JsError.typeError
  | (some priorityNode, heap) =>
    let taskThing := priorityNode.value
    let s1 : TaskPriorities :=
      { s with prioritizedTasks := heap,
               taskIdToHeapNode := mapDel s.taskIdToHeapNode taskThing.id }
    let s2 := s1.cleanupTaskPriorityTracking taskThing priorityNode.nodeId
    Except.ok (taskThing, s2)

/-- Source: `_reprioritizeHeapNode`: decreaseKey when the new key is smaller,
delete-and-reinsert (a fresh node, same value) when larger, nothing when equal.
The node object is read through the arena, as in JavaScript, because callers
may hold a reference to a node already removed from the heap; the none branch
is unreachable for the states considered in this development. -/
def reprioritizeHeapNode (s : TaskPriorities) (nid : Nat) (newKey : Int) : TaskPriorities :=
  match s.prioritizedTasks.node? nid with
  | none => s
  | some node =>
    if newKey < node.key then
      { s with prioritizedTasks := s.prioritizedTasks.decreaseKey nid newKey }
    else if node.key < newKey then
      let taskThing := node.value
      let h1 := s.prioritizedTasks.deleteNode nid
      { s with prioritizedTasks := (h1.insert newKey taskThing).1 }
    else s

/-- Source: `prioritizeTaskThing`.  Note that on the reprioritize path the
source keeps using the original `priorityNode` object even when
`_reprioritizeHeapNode` has deleted it from the heap and inserted a fresh node:
the value assignment and the tag tracking target the original node, and
`_taskIdToHeapNode` is left unchanged. -/
def prioritizeTaskThing (s : TaskPriorities) (taskThing : TaskThing) : TaskPriorities :=
  let priorityTags := taskThing.effectiveTags
  let relPriority := (taskThing.relPri).getD 0
  let priority := relPriority + s.computePriorityForTags priorityTags
  let nodeKey := -priority
  match mapGet? s.taskIdToHeapNode taskThing.id with
  | some nid =>
    let s1 := s.reprioritizeHeapNode nid nodeKey
    match s1.prioritizedTasks.node? nid with
    | none => s1
    | some priorityNode =>
      let oldTaskThing := priorityNode.value
      let s2 := s1.cleanupTaskPriorityTracking oldTaskThing nid
      let s3 : TaskPriorities :=
        { s2 with prioritizedTasks := s2.prioritizedTasks.setValue nid taskThing }
      s3.setupTaskPriorityTracking taskThing nid
  | none =>
    let h1 := s.prioritizedTasks.insert nodeKey taskThing
    let s1 : TaskPriorities :=
      { s with prioritizedTasks := h1.1,
               taskIdToHeapNode := mapSet s.taskIdToHeapNode taskThing.id h1.2 }
    s1.setupTaskPriorityTracking taskThing h1.2

/-- Source: `setPriorityBoostTags`.  After recording or deleting the owner
entry, the code iterates `newValues.items()`; JavaScript `Map` has no `items`
method (the source file defines no polyfill), so every call raises a TypeError
at that line, before any update of `_summedPriorityTags` or of the heap.  The
mutated-so-far state is returned alongside the error, matching the object
state an exception leaves behind. -/
def setPriorityBoostTags (s : TaskPriorities) (owningId : String)
    (tagsWithValues : Option (List (Tag × Int))) : TaskPriorities × Option JsError :=
  let s1 : TaskPriorities :=
    { s with priorityTagsByOwner :=
        match tagsWithValues with
        | some m => mapSet s.priorityTagsByOwner owningId m
        | none => mapDel s.priorityTagsByOwner owningId }
  (s1, some JsError.typeError)

/-- Source: `removeTaskThing`: guarded removal through `_taskIdToHeapNode`. -/
def removeTaskThing (s : TaskPriorities) (taskId : Nat) : TaskPriorities :=
  match mapGet? s.taskIdToHeapNode taskId with
  | some nid =>
    match s.prioritizedTasks.node? nid with
    | none => s
    | some priorityNode =>
      let taskThing := priorityNode.value
      let s1 : TaskPriorities :=
        { s with prioritizedTasks := s.prioritizedTasks.deleteNode nid,
                 taskIdToHeapNode := mapDel s.taskIdToHeapNode taskId }
      s1.cleanupTaskPriorityTracking taskThing nid
  | none => s

end TaskPriorities

/-- The effective priority of a task/marker in a given engine state: its own
relative priority plus the summed boost weights of its tags (as computed by
`_computePriorityForTags`). -/
def effectivePriority (s : TaskPriorities) (t : TaskThing) : Int :=
  (t.relPri).getD 0 + s.computePriorityForTags t.effectiveTags

/-- Run a sequence of prioritizeTaskThing calls on a fresh index. -/
def runPrioritize (things : List TaskThing) : TaskPriorities :=
  things.foldl TaskPriorities.prioritizeTaskThing TaskPriorities.init

/-- Iterate popNextAvailableTask k times, keeping the final state. -/
def popK (s : TaskPriorities) : Nat → TaskPriorities
  | 0 => s
  | Nat.succ k =>
    match s.popNextAvailableTask with
    | Except.ok p => popK p.2 k
    | Except.error _ => s

/-- Collect the task things returned by up to k pops. -/
def popList (s : TaskPriorities) : Nat → List TaskThing
  | 0 => []
  | Nat.succ k =>
    match s.popNextAvailableTask with
    | Except.ok p => p.1 :: popList p.2 k
    | Except.error _ => []

/-! ## The append_message simple task (src/js/imap/vanilla_tasks/append_message.js) -/

/-- A raw append_message task request: the fields the plan function touches
(resources, exclusiveResources, priorityTags) plus the fields it leaves alone
and later code reads (accountId, folderId, umid, messageInfo, ...). -/
structure AppendRawTask where
  type : String
  accountId : Nat
  folderId : Nat
  umid : String
  messageInfo : String
  resources : List String
  exclusiveResources : List String
  priorityTags : List Tag
  relPriority : Option Int
  deriving DecidableEq

/-- Modelled from the spec: `shallowClone` from js/util.js (required by
append_message but not among the sources here) copies every own property of
the object into a fresh object; on an immutable record that is the identity
copy. -/
def shallowClone (t : AppendRawTask) : AppendRawTask :=
  ⟨t.type, t.accountId, t.folderId, t.umid, t.messageInfo, t.resources,
   t.exclusiveResources, t.priorityTags, t.relPriority⟩

/-- The argument record of `ctx.finishTask({taskState: plannedTask})` in the
plan function. -/
structure PlanFinishArgs where
  taskState : AppendRawTask
  deriving DecidableEq

/-- Modelled from the spec: a task or marker whose declared resource sets are
empty is always immediately ready (never held back by the Resource Gate). -/
def immediatelyReady (t : AppendRawTask) : Prop :=
  t.resources = [] ∧ t.exclusiveResources = []

/-- Source: the plan function of append_message.  It shallow-clones the raw
task, overwrites resources, exclusiveResources and priorityTags with empty
arrays, and performs exactly one context operation: `yield
ctx.finishTask({taskState: plannedTask})`.  The returned list is the trace of
finishTask calls. -/
def appendMessagePlan (rawTask : AppendRawTask) : List PlanFinishArgs :=
  let plannedTask := shallowClone rawTask
  let plannedTask := { plannedTask with resources := [] }
  let plannedTask := { plannedTask with exclusiveResources := [] }
  let plannedTask := { plannedTask with priorityTags := [] }
  [⟨plannedTask⟩]

/-- How the execute generator of a task exits. -/
inductive ExecExit
  | completed
  | threw (e : JsError)
  deriving DecidableEq

/-- Oracle for the awaited external operations of the append_message execute:
true means the yielded promise resolves, false means it rejects (the exception
then propagates out of the generator, there being no try/catch). -/
structure AppendExecEnv where
  acquireAccountOk : Bool
  deriveMessageBlobOk : Bool
  uploadOk : Bool
  deriving DecidableEq

/-- Outcome of running an execute generator to its exit. -/
structure ExecOutcome where
  finishTaskCalls : Nat
  exit : ExecExit
  deriving DecidableEq

/-- Source: the execute function of append_message.  After the composer
derives the message blob, the code evaluates
`const composedMessage = { messageText: blob, ... }`;
the identifier `blob` is declared nowhere in the function (the locals are
`composedBlob` and `composedString`), so strict mode raises a ReferenceError
there, before the upload and before any finishTask call.  (The final
finishTask argument likewise names the undefined identifiers
`modifiedConversations`, `headerIdWrites`, `messageId`, `newConversations`,
`messageInfo` and `extraTasks`.) -/
def appendMessageExecute (env : AppendExecEnv) : ExecOutcome :=
  if !env.acquireAccountOk then ⟨0, ExecExit.threw JsError.operationFailed⟩
  else if !env.deriveMessageBlobOk then ⟨0, ExecExit.threw JsError.operationFailed⟩
  else ⟨0, ExecExit.threw JsError.referenceError⟩

/-! ## The store_flags complex task execute (src/unnamed/part_000, first block) -/

/-- A pending flag change-set for one umid: the add and remove flag lists
(an absent list behaves as empty under `changes.add && changes.add.length`). -/
structure FlagChanges where
  add : List String
  remove : List String
  deriving DecidableEq

/-- The persistent state of the store_flags complex task: the umidChanges map
from umid to its pending change-set. -/
abbrev UmidChanges := List (String × FlagChanges)

/-- The marker handed to store_flags execute. -/
structure StoreFlagsMarker where
  umid : String
  accountId : Nat
  deriving DecidableEq

/-- Oracle for the awaited external operations of store_flags execute.
`umidLocation` is what `fromDb.umidLocations.get(marker.umid)` yields: the
(folderId, uid) pair, or none when the store has no record (the array
destructuring then raises a TypeError). -/
structure StoreFlagsEnv where
  acquireAccountOk : Bool
  beginMutateOk : Bool
  umidLocation : Option (Nat × Nat)
  storeAddOk : Bool
  storeRemoveOk : Bool
  deriving DecidableEq

/-- Outcome of store_flags execute: the finishTask call count, the exit, the
state of the (mutated in place) persistentState.umidChanges at exit, and the
complexTaskState argument passed to finishTask when it was called. -/
structure StoreFlagsOutcome where
  finishTaskCalls : Nat
  exit : ExecExit
  umidChanges : UmidChanges
  committed : Option UmidChanges
  deriving DecidableEq

/-- Source: the execute function of store_flags.  Reads the pending changes of
the marker umid, acquires the account, begins the mutation to read the umid
location, issues a +store for a nonempty add list and a -store for a nonempty
remove list, then deletes the umid entry from umidChanges and finishes with
`ctx.finishTask({complexTaskState: persistentState})`.  Any rejected awaited
operation propagates out of the generator (there is no try/catch); a missing
umid location fails the array destructuring, and a missing change-set fails
the `changes.add` member access. -/
def storeFlagsExecute (persistentState : UmidChanges) (marker : StoreFlagsMarker)
    (env : StoreFlagsEnv) : StoreFlagsOutcome :=
  let changes := mapGet? persistentState marker.umid
  if !env.acquireAccountOk then
    ⟨0, ExecExit.threw JsError.operationFailed, persistentState, none⟩
  else if !env.beginMutateOk then
    ⟨0, ExecExit.threw JsError.operationFailed, persistentState, none⟩
  else
    match env.umidLocation with
    | none => ⟨0, ExecExit.threw JsError.typeError, persistentState, none⟩
    | some _ =>
      match changes with
      | none => ⟨0, ExecExit.threw JsError.typeError, persistentState, none⟩
      | some ch =>
        if !ch.add.isEmpty && !env.storeAddOk then
          ⟨0, ExecExit.threw JsError.operationFailed, persistentState, none⟩
        else if !ch.remove.isEmpty && !env.storeRemoveOk then
          ⟨0, ExecExit.threw JsError.operationFailed, persistentState, none⟩
        else
          let drained := mapDel persistentState marker.umid
          ⟨1, ExecExit.completed, drained, some drained⟩

/-! ## Concrete inputs used by the claim theorems and witnesses -/

/-- Scenario A task 1: priority 5, no resources, no tags. -/
def scenarioTask1 : TaskThing := TaskThing.task 1 ⟨[], some 5⟩

/-- Scenario A task 2: priority 1. -/
def scenarioTask2 : TaskThing := TaskThing.task 2 ⟨[], some 1⟩

/-- Scenario A task 3: priority 5. -/
def scenarioTask3 : TaskThing := TaskThing.task 3 ⟨[], some 5⟩

/-- Task id 1 submitted with relative priority 5. -/
def reprioFirst : TaskThing := TaskThing.task 1 ⟨[], some 5⟩

/-- Task id 1 re-submitted with relative priority 1. -/
def reprioSecond : TaskThing := TaskThing.task 1 ⟨[], some 1⟩

/-- Task id 1 re-submitted with relative priority 3. -/
def reprioThird : TaskThing := TaskThing.task 1 ⟨[], some 3⟩

/-- Task id 2 submitted with relative priority 3. -/
def otherTask3 : TaskThing := TaskThing.task 2 ⟨[], some 3⟩

/-- The index state of the C1 counterexample: submit id 1 at priority 5,
re-prioritize id 1 down to priority 1, submit id 2 at priority 3. -/
def c1CexState : TaskPriorities := runPrioritize [reprioFirst, reprioSecond, otherTask3]

/-- The index state of the C5 failing input: submit id 1 at priority 5, then
re-prioritize id 1 down to priority 3 (a key increase, hence the
delete-and-reinsert path). -/
def c5State : TaskPriorities := runPrioritize [reprioFirst, reprioThird]

/-- A concrete raw append_message task with nonempty resource and tag fields. -/
def wAppendRaw : AppendRawTask :=
  ⟨"append_message", 11, 4, "umid-7", "draft snapshot", ["online"],
   ["folder:4"], ["account:11"], some 2⟩

/-- The planned form of wAppendRaw: same fields, emptied resource and tag
lists. -/
def wAppendPlanned : AppendRawTask :=
  { wAppendRaw with resources := [], exclusiveResources := [], priorityTags := [] }

/-- A single submitted task used by several witnesses. -/
def wSolo : TaskThing := TaskThing.task 7 ⟨[], some 4⟩

/-- A marker with one priority tag and relative priority 2, used by the C3
witness. -/
def wC3Marker : TaskThing := TaskThing.marker 8 "store_flags" ["account:11"] (some 2)

/-- The state holding only wSolo. -/
def wSoloState : TaskPriorities := runPrioritize [wSolo]

/-- The state of wSoloState after its pop (empty heap, nonempty arena). -/
def wSoloPopped : TaskPriorities :=
  match wSoloState.popNextAvailableTask with
  | Except.ok p => p.2
  | Except.error _ => TaskPriorities.init

/-! ## Association-list lemmas -/

theorem find?_del_self {α β : Type} [DecidableEq α] (m : List (α × β)) (k : α) :
    (mapDel m k).find? (fun p => decide (p.1 = k)) = none := by
  induction m with
  | nil => rfl
  | cons p rest ih =>
    by_cases h : p.1 = k
    · simp only [mapDel, List.filter_cons, h]
      simp
    · simp only [mapDel, List.filter_cons, h]
      simp [h]

theorem mapGet?_del_self {α β : Type} [DecidableEq α] (m : List (α × β)) (k : α) :
    mapGet? (mapDel m k) k = none := by
  unfold mapGet?
  rw [find?_del_self]
  rfl

theorem find?_del_ne {α β : Type} [DecidableEq α] (m : List (α × β)) (k k1 : α)
    (h : k1 ≠ k) :
    (mapDel m k).find? (fun p => decide (p.1 = k1))
      = m.find? (fun p => decide (p.1 = k1)) := by
  induction m with
  | nil => rfl
  | cons p rest ih =>
    by_cases hp : p.1 = k
    · have hq : p.1 ≠ k1 := fun e => h ((hp ▸ e : k = k1).symm)
      simp only [mapDel, List.filter_cons] at ih ⊢
      simp only [hp, hq, decide_not, decide_eq_true_eq]
      simp [hq]
      simpa [mapDel] using ih
    · simp only [mapDel, List.filter_cons] at ih ⊢
      by_cases hq : p.1 = k1
      · simp [hp, hq, h]
      · simp only [hp, hq, decide_not]
        simp [hq]
        simpa [mapDel] using ih

theorem mapGet?_del_ne {α β : Type} [DecidableEq α] (m : List (α × β)) (k k1 : α)
    (h : k1 ≠ k) : mapGet? (mapDel m k) k1 = mapGet? m k1 := by
  unfold mapGet?
  rw [find?_del_ne _ _ _ h]

theorem liveNodes_of_live_nil (h : FibonacciHeap) (hl : h.live = []) :
    h.liveNodes = [] := by
  simp [FibonacciHeap.liveNodes, hl]

/-! ## Heap-node lemmas -/

/-- Arena well-formedness: every node id already handed out is below the
fresh-id counter, so a fresh insert cannot collide with an existing node. -/
def FibonacciHeap.WFarena (h : FibonacciHeap) : Prop :=
  ∀ n ∈ h.nodes, n.nodeId < h.nextNodeId

theorem find?_map_nodeId (f : HeapNode → HeapNode)
    (hf : ∀ n, (f n).nodeId = n.nodeId) (l : List HeapNode) (nid : Nat) :
    (l.map f).find? (fun n => decide (n.nodeId = nid))
      = (l.find? (fun n => decide (n.nodeId = nid))).map f := by
  induction l with
  | nil => rfl
  | cons a rest ih =>
    by_cases ha : a.nodeId = nid
    · simp [hf, ha]
    · simp only [List.map_cons]
      rw [List.find?_cons_of_neg _ (by simp [hf, ha]),
          List.find?_cons_of_neg _ (by simp [ha])]
      exact ih

theorem node?_decreaseKey (h : FibonacciHeap) (nid nid1 : Nat) (k : Int) :
    (h.decreaseKey nid k).node? nid1
      = (h.node? nid1).map
          (fun n => if n.nodeId = nid then { n with key := k } else n) := by
  unfold FibonacciHeap.decreaseKey FibonacciHeap.node?
  exact find?_map_nodeId _ (fun n => by by_cases hn : n.nodeId = nid <;> simp [hn]) _ _

theorem node?_setValue (h : FibonacciHeap) (nid nid1 : Nat) (v : TaskThing) :
    (h.setValue nid v).node? nid1
      = (h.node? nid1).map
          (fun n => if n.nodeId = nid then { n with value := v } else n) := by
  unfold FibonacciHeap.setValue FibonacciHeap.node?
  exact find?_map_nodeId _ (fun n => by by_cases hn : n.nodeId = nid <;> simp [hn]) _ _

theorem node?_nodeId (h : FibonacciHeap) (nid : Nat) (node : HeapNode)
    (hn : h.node? nid = some node) : node.nodeId = nid := by
  have := List.find?_some hn
  simpa using this

theorem node?_mem (h : FibonacciHeap) (nid : Nat) (node : HeapNode)
    (hn : h.node? nid = some node) : node ∈ h.nodes :=
  List.mem_of_find?_eq_some hn

/-- A fresh insert is retrievable at the fresh id, provided the arena is
well formed (no older node carries that id). -/
theorem node?_insert_new (h : FibonacciHeap) (hwf : h.WFarena) (k : Int)
    (v : TaskThing) :
    (h.insert k v).1.node? h.nextNodeId = some ⟨h.nextNodeId, k, v⟩ := by
  unfold FibonacciHeap.insert FibonacciHeap.node?
  rw [List.find?_append]
  have hnone : h.nodes.find? (fun n => decide (n.nodeId = h.nextNodeId)) = none := by
    rw [List.find?_eq_none]
    intro n hn
    simp only [decide_eq_true_eq]
    exact Nat.ne_of_lt (hwf n hn)
  rw [hnone]
  simp

/-- An old node is still retrievable after an insert. -/
theorem node?_insert_old (h : FibonacciHeap) (k : Int) (v : TaskThing)
    (nid : Nat) (node : HeapNode) (hn : h.node? nid = some node) :
    (h.insert k v).1.node? nid = some node := by
  unfold FibonacciHeap.insert FibonacciHeap.node?
  rw [List.find?_append]
  unfold FibonacciHeap.node? at hn
  rw [hn]
  rfl

theorem node?_deleteNode (h : FibonacciHeap) (nid nid1 : Nat) :
    (h.deleteNode nid).node? nid1 = h.node? nid1 := rfl

/-- decreaseKey, setValue and deleteNode leave the fresh-id counter alone. -/
theorem nextNodeId_stable (h : FibonacciHeap) (nid : Nat) (k : Int) (v : TaskThing) :
    (h.decreaseKey nid k).nextNodeId = h.nextNodeId ∧
    (h.setValue nid v).nextNodeId = h.nextNodeId ∧
    (h.deleteNode nid).nextNodeId = h.nextNodeId :=
  ⟨rfl, rfl, rfl⟩

/-! ## Tag-tracking loops touch only the tag map -/

theorem setupTagStep_frame (nid : Nat) (s : TaskPriorities) (tag : Tag) :
    (TaskPriorities.setupTagStep nid s tag).prioritizedTasks = s.prioritizedTasks ∧
    (TaskPriorities.setupTagStep nid s tag).taskIdToHeapNode = s.taskIdToHeapNode ∧
    (TaskPriorities.setupTagStep nid s tag).summedPriorityTags = s.summedPriorityTags := by
  unfold TaskPriorities.setupTagStep
  cases mapGet? s.priorityTagToHeapNodes tag <;> exact ⟨rfl, rfl, rfl⟩

theorem cleanupTagStep_frame (nid : Nat) (s : TaskPriorities) (tag : Tag) :
    (TaskPriorities.cleanupTagStep nid s tag).prioritizedTasks = s.prioritizedTasks ∧
    (TaskPriorities.cleanupTagStep nid s tag).taskIdToHeapNode = s.taskIdToHeapNode ∧
    (TaskPriorities.cleanupTagStep nid s tag).summedPriorityTags = s.summedPriorityTags := by
  unfold TaskPriorities.cleanupTagStep
  cases mapGet? s.priorityTagToHeapNodes tag with
  | none => exact ⟨rfl, rfl, rfl⟩
  | some nodes =>
    by_cases he : (nodes.erase nid).isEmpty <;> simp [he]

theorem setup_frame (s : TaskPriorities) (t : TaskThing) (nid : Nat) :
    (s.setupTaskPriorityTracking t nid).prioritizedTasks = s.prioritizedTasks ∧
    (s.setupTaskPriorityTracking t nid).taskIdToHeapNode = s.taskIdToHeapNode ∧
    (s.setupTaskPriorityTracking t nid).summedPriorityTags = s.summedPriorityTags := by
  unfold TaskPriorities.setupTaskPriorityTracking
  generalize t.effectiveTags = tags
  induction tags generalizing s with
  | nil => exact ⟨rfl, rfl, rfl⟩
  | cons a rest ih =>
    rw [List.foldl_cons]
    obtain ⟨h1, h2, h3⟩ := ih (TaskPriorities.setupTagStep nid s a)
    obtain ⟨g1, g2, g3⟩ := setupTagStep_frame nid s a
    exact ⟨h1.trans g1, h2.trans g2, h3.trans g3⟩

theorem cleanup_frame (s : TaskPriorities) (t : TaskThing) (nid : Nat) :
    (s.cleanupTaskPriorityTracking t nid).prioritizedTasks = s.prioritizedTasks ∧
    (s.cleanupTaskPriorityTracking t nid).taskIdToHeapNode = s.taskIdToHeapNode ∧
    (s.cleanupTaskPriorityTracking t nid).summedPriorityTags = s.summedPriorityTags := by
  unfold TaskPriorities.cleanupTaskPriorityTracking
  generalize t.effectiveTags = tags
  induction tags generalizing s with
  | nil => exact ⟨rfl, rfl, rfl⟩
  | cons a rest ih =>
    rw [List.foldl_cons]
    obtain ⟨h1, h2, h3⟩ := ih (TaskPriorities.cleanupTagStep nid s a)
    obtain ⟨g1, g2, g3⟩ := cleanupTagStep_frame nid s a
    exact ⟨h1.trans g1, h2.trans g2, h3.trans g3⟩

/-- Case analysis of `_reprioritizeHeapNode` once the node object is known. -/
theorem reprioritize_eq (s : TaskPriorities) (nid : Nat) (node : HeapNode)
    (newKey : Int) (hn : s.prioritizedTasks.node? nid = some node) :
    s.reprioritizeHeapNode nid newKey
      = (if newKey < node.key then
          { s with prioritizedTasks := s.prioritizedTasks.decreaseKey nid newKey }
        else if node.key < newKey then
          { s with prioritizedTasks :=
              ((s.prioritizedTasks.deleteNode nid).insert newKey node.value).1 }
        else s) := by
  unfold TaskPriorities.reprioritizeHeapNode
  rw [hn]

/-- `prioritizeTaskThing` on a fresh id inserts a node carrying the negated
effective priority and records it in the id map. -/
theorem prioritize_fresh_eq (s : TaskPriorities) (t : TaskThing)
    (hnone : mapGet? s.taskIdToHeapNode t.id = none) :
    s.prioritizeTaskThing t
      = TaskPriorities.setupTaskPriorityTracking
          { s with
              prioritizedTasks :=
                (s.prioritizedTasks.insert (-(effectivePriority s t)) t).1
              taskIdToHeapNode :=
                mapSet s.taskIdToHeapNode t.id s.prioritizedTasks.nextNodeId }
          t s.prioritizedTasks.nextNodeId := by
  unfold TaskPriorities.prioritizeTaskThing
  rw [hnone]
  rfl

/-- `prioritizeTaskThing` on an id already in the map: re-weight through
`_reprioritizeHeapNode`, clean up the old tag tracking of the node object the
map points at, overwrite its value field, and re-register its tags. -/
theorem prioritize_existing_eq (s : TaskPriorities) (t : TaskThing) (nid : Nat)
    (hm : mapGet? s.taskIdToHeapNode t.id = some nid)
    (node1 : HeapNode)
    (hn1 : (s.reprioritizeHeapNode nid
        (-(effectivePriority s t))).prioritizedTasks.node? nid = some node1) :
    s.prioritizeTaskThing t
      = TaskPriorities.setupTaskPriorityTracking
          { (s.reprioritizeHeapNode nid
              (-(effectivePriority s t))).cleanupTaskPriorityTracking node1.value nid with
              prioritizedTasks :=
                (((s.reprioritizeHeapNode nid
                  (-(effectivePriority s t))).cleanupTaskPriorityTracking
                    node1.value nid).prioritizedTasks.setValue nid t) }
          t nid := by
  unfold TaskPriorities.prioritizeTaskThing
  unfold effectivePriority at hn1
  simp only [hm]
  rw [hn1]
  rfl

/-- The fold of `_computePriorityForTags` is the plain sum of the summed
boost weights of the tags, a missing entry counting as zero. -/
theorem computePriority_eq_sum (s : TaskPriorities) (tags : List Tag) :
    s.computePriorityForTags tags
      = (tags.map (fun tg => (mapGet? s.summedPriorityTags tg).getD 0)).sum := by
  unfold TaskPriorities.computePriorityForTags
  have key : ∀ (l : List Tag) (a : Int),
      l.foldl (fun priority priorityTag =>
        priority + ((mapGet? s.summedPriorityTags priorityTag).getD 0)) a
        = a + (l.map (fun tg => (mapGet? s.summedPriorityTags tg).getD 0)).sum := by
    intro l
    induction l with
    | nil => intro a; simp
    | cons x rest ih =>
      intro a
      rw [List.foldl_cons, ih, List.map_cons, List.sum_cons]
      ring
  simpa using key tags 0

/-! ## Claim theorems -/

/-- C10: hasTasksToExecute returns the result of the underlying heap isEmpty:
it is true exactly when the index contains no ready task/marker (the heap live
set is empty) and false when at least one is present — the inverse of what the
name suggests. -/
theorem claim_C10_hasTasksToExecute (s : TaskPriorities) :
    s.hasTasksToExecute = s.prioritizedTasks.isEmpty ∧
    (s.hasTasksToExecute = true ↔ s.prioritizedTasks.live = []) := by
  refine ⟨rfl, ?_⟩
  simp [TaskPriorities.hasTasksToExecute, FibonacciHeap.isEmpty]

/-- C10 witness: on the concrete one-task state, hasTasksToExecute is the heap
isEmpty and is not true (the live set is nonempty). -/
theorem claim_C10_hasTasksToExecute_witness :
    wSoloState.hasTasksToExecute = wSoloState.prioritizedTasks.isEmpty ∧
    (wSoloState.hasTasksToExecute = true ↔ wSoloState.prioritizedTasks.live = []) :=
  claim_C10_hasTasksToExecute wSoloState

/-- C4 counterexample: on an empty TaskPriorities index, popNextAvailableTask
does not return an empty result — extractMinimum yields null and the
unguarded `.value` access raises a TypeError. -/
theorem claim_C4_counterexample :
    TaskPriorities.init.popNextAvailableTask = Except.error JsError.typeError := rfl

/-- C4 (amended): calling popNextAvailableTask on an index whose heap is empty
raises a TypeError (the null result of extractMinimum is dereferenced) rather
than returning an empty result. -/
theorem claim_C4_empty_pop (s : TaskPriorities) (h : s.prioritizedTasks.live = []) :
    s.popNextAvailableTask = Except.error JsError.typeError := by
  unfold TaskPriorities.popNextAvailableTask FibonacciHeap.extractMinimum
  rw [liveNodes_of_live_nil _ h]
  rfl

/-- C4 witness: the amended theorem applied to the concrete emptied index
obtained by submitting one task and popping it. -/
theorem claim_C4_empty_pop_witness :
    wSoloPopped.popNextAvailableTask = Except.error JsError.typeError :=
  claim_C4_empty_pop wSoloPopped rfl

/-- C2 (code bug): every setPriorityBoostTags call throws a TypeError at the
loop over `newValues.items()` (JavaScript Map has no items method), after
updating the per-owner map but before updating any summed weight; so the
summed-weights map never reflects any boost.  Concretely, after owner viewA
asserts folder:inbox at +10, the owner map records the mapping but the summed
weight of folder:inbox stays absent instead of 10. -/
theorem claim_C2_boost_accounting_bug :
    (∀ (s : TaskPriorities) (owningId : String)
        (tagsWithValues : Option (List (Tag × Int))),
      (s.setPriorityBoostTags owningId tagsWithValues).2 = some JsError.typeError ∧
      (s.setPriorityBoostTags owningId tagsWithValues).1.summedPriorityTags
        = s.summedPriorityTags) ∧
    (TaskPriorities.init.setPriorityBoostTags "viewA"
        (some [("folder:inbox", 10)])).1.summedPriorityTags = [] ∧
    mapGet? (TaskPriorities.init.setPriorityBoostTags "viewA"
        (some [("folder:inbox", 10)])).1.priorityTagsByOwner "viewA"
      = some [("folder:inbox", 10)] := by
  exact ⟨fun s o tv => ⟨rfl, rfl⟩, rfl, rfl⟩

/-- C5 (code bug): after submitting task id 1 at priority 5 and
re-prioritizing it to priority 3 (a heap-key increase), prioritizeTaskThing
has inserted a second node (node 1) for the id instead of reusing node 0:
the id-to-node map still points at node 0, which is no longer in the heap,
while the live heap node for the id is the untracked node 1 (still carrying
the superseded task record).  removeTaskThing(1) therefore deletes the dead
node and leaves node 1 in the heap, and the removed task is still returned by
a subsequent pop. -/
theorem claim_C5_node_identity_bug :
    mapGet? c5State.taskIdToHeapNode 1 = some 0 ∧
    c5State.prioritizedTasks.live = [1] ∧
    c5State.prioritizedTasks.node? 1 = some ⟨1, -3, reprioFirst⟩ ∧
    (c5State.removeTaskThing 1).prioritizedTasks.live = [1] ∧
    ((c5State.removeTaskThing 1).popNextAvailableTask.toOption.map
      (fun p => TaskThing.id p.1)) = some 1 :=
  ⟨rfl, rfl, rfl, rfl, rfl⟩

/-- C7 (code bug): the append_message execute cannot call finishTask on any
exit path: even when every awaited operation succeeds it raises a
ReferenceError at the undefined identifier blob, with zero finishTask calls;
and store_flags execute performs zero finishTask calls when an awaited
operation (here acquireAccount) throws, since neither function has a
try/catch. -/
theorem claim_C7_finish_exactly_once_bug :
    appendMessageExecute ⟨true, true, true⟩
      = ⟨0, ExecExit.threw JsError.referenceError⟩ ∧
    (∀ env : AppendExecEnv, (appendMessageExecute env).finishTaskCalls = 0) ∧
    (storeFlagsExecute [("umid-1", ⟨["\\Seen"], []⟩)] ⟨"umid-1", 3⟩
        ⟨false, true, some (2, 9), true, true⟩).finishTaskCalls = 0 ∧
    (storeFlagsExecute [("umid-1", ⟨["\\Seen"], []⟩)] ⟨"umid-1", 3⟩
        ⟨false, true, some (2, 9), true, true⟩).exit
      = ExecExit.threw JsError.operationFailed := by
  refine ⟨rfl, fun env => ?_, rfl, rfl⟩
  rcases env with ⟨a, d, u⟩
  cases a <;> cases d <;> rfl

/-- C8: when store_flags execute completes successfully for a marker (account
acquired, location present, a pending change-set exists, the store commands
succeed), the umid entry is removed from the persistent umidChanges map, the
updated state is committed through a single finishTask({complexTaskState})
call, and the change-sets of other umids are untouched. -/
theorem claim_C8_store_flags_commit (persistentState : UmidChanges)
    (marker : StoreFlagsMarker) (env : StoreFlagsEnv)
    (hacq : env.acquireAccountOk = true)
    (hmut : env.beginMutateOk = true)
    (hloc : env.umidLocation.isSome = true)
    (hch : (mapGet? persistentState marker.umid).isSome = true)
    (hadd : env.storeAddOk = true)
    (hrem : env.storeRemoveOk = true) :
    (storeFlagsExecute persistentState marker env).exit = ExecExit.completed ∧
    (storeFlagsExecute persistentState marker env).finishTaskCalls = 1 ∧
    mapGet? (storeFlagsExecute persistentState marker env).umidChanges marker.umid
      = none ∧
    (storeFlagsExecute persistentState marker env).committed
      = some (storeFlagsExecute persistentState marker env).umidChanges ∧
    (∀ umid1, umid1 ≠ marker.umid →
      mapGet? (storeFlagsExecute persistentState marker env).umidChanges umid1
        = mapGet? persistentState umid1) := by
  obtain ⟨loc, hloc1⟩ := Option.isSome_iff_exists.mp hloc
  obtain ⟨ch, hch1⟩ := Option.isSome_iff_exists.mp hch
  have hrun : storeFlagsExecute persistentState marker env
      = ⟨1, ExecExit.completed, mapDel persistentState marker.umid,
         some (mapDel persistentState marker.umid)⟩ := by
    unfold storeFlagsExecute
    rw [hch1, hacq, hmut, hloc1]
    simp [hadd, hrem]
  rw [hrun]
  refine ⟨rfl, rfl, mapGet?_del_self _ _, rfl, ?_⟩
  intro umid1 hne
  exact mapGet?_del_ne _ _ _ hne

/-- C8 witness: the theorem applied to a concrete two-umid state and marker,
with all awaited operations succeeding. -/
theorem claim_C8_store_flags_commit_witness :
    (storeFlagsExecute
        [("u-1", ⟨["\\Seen"], []⟩), ("u-2", ⟨[], ["\\Flagged"]⟩)]
        ⟨"u-1", 3⟩ ⟨true, true, some (2, 9), true, true⟩).exit
      = ExecExit.completed ∧
    (storeFlagsExecute
        [("u-1", ⟨["\\Seen"], []⟩), ("u-2", ⟨[], ["\\Flagged"]⟩)]
        ⟨"u-1", 3⟩ ⟨true, true, some (2, 9), true, true⟩).finishTaskCalls = 1 ∧
    mapGet? (storeFlagsExecute
        [("u-1", ⟨["\\Seen"], []⟩), ("u-2", ⟨[], ["\\Flagged"]⟩)]
        ⟨"u-1", 3⟩ ⟨true, true, some (2, 9), true, true⟩).umidChanges "u-1"
      = none ∧
    (storeFlagsExecute
        [("u-1", ⟨["\\Seen"], []⟩), ("u-2", ⟨[], ["\\Flagged"]⟩)]
        ⟨"u-1", 3⟩ ⟨true, true, some (2, 9), true, true⟩).committed
      = some (storeFlagsExecute
        [("u-1", ⟨["\\Seen"], []⟩), ("u-2", ⟨[], ["\\Flagged"]⟩)]
        ⟨"u-1", 3⟩ ⟨true, true, some (2, 9), true, true⟩).umidChanges ∧
    (∀ umid1, umid1 ≠ "u-1" →
      mapGet? (storeFlagsExecute
          [("u-1", ⟨["\\Seen"], []⟩), ("u-2", ⟨[], ["\\Flagged"]⟩)]
          ⟨"u-1", 3⟩ ⟨true, true, some (2, 9), true, true⟩).umidChanges umid1
        = mapGet? [("u-1", (⟨["\\Seen"], []⟩ : FlagChanges)),
                   ("u-2", ⟨[], ["\\Flagged"]⟩)] umid1) :=
  claim_C8_store_flags_commit
    [("u-1", ⟨["\\Seen"], []⟩), ("u-2", ⟨[], ["\\Flagged"]⟩)]
    ⟨"u-1", 3⟩ ⟨true, true, some (2, 9), true, true⟩ rfl rfl rfl rfl rfl rfl

/-- C9: the append_message plan function produces, for every raw task, a
planned task whose resources, exclusiveResources and priorityTags fields are
the empty list while every other field of the raw task is preserved unchanged
(shallow clone), and its only context effect is the single
finishTask({taskState}) call recording it; its empty resource sets make it
immediately ready. -/
theorem claim_C9_append_plan (rawTask : AppendRawTask) :
    appendMessagePlan rawTask
      = [⟨{ rawTask with
              resources := []
              exclusiveResources := []
              priorityTags := [] }⟩] ∧
    ∀ call ∈ appendMessagePlan rawTask,
      call.taskState.resources = [] ∧
      call.taskState.exclusiveResources = [] ∧
      call.taskState.priorityTags = [] ∧
      immediatelyReady call.taskState ∧
      call.taskState.type = rawTask.type ∧
      call.taskState.accountId = rawTask.accountId ∧
      call.taskState.folderId = rawTask.folderId ∧
      call.taskState.umid = rawTask.umid ∧
      call.taskState.messageInfo = rawTask.messageInfo ∧
      call.taskState.relPriority = rawTask.relPriority := by
  constructor
  · rfl
  · intro call hc
    simp only [appendMessagePlan, List.mem_singleton] at hc
    subst hc
    exact ⟨rfl, rfl, rfl, ⟨rfl, rfl⟩, rfl, rfl, rfl, rfl, rfl, rfl⟩

/-- C9 witness: the theorem applied to a concrete raw task with nonempty
resource and tag fields, at the single finishTask call it performs. -/
theorem claim_C9_append_plan_witness :
    (PlanFinishArgs.mk wAppendPlanned).taskState.resources = [] ∧
    (PlanFinishArgs.mk wAppendPlanned).taskState.exclusiveResources = [] ∧
    (PlanFinishArgs.mk wAppendPlanned).taskState.priorityTags = [] ∧
    immediatelyReady (PlanFinishArgs.mk wAppendPlanned).taskState ∧
    (PlanFinishArgs.mk wAppendPlanned).taskState.type = wAppendRaw.type ∧
    (PlanFinishArgs.mk wAppendPlanned).taskState.accountId = wAppendRaw.accountId ∧
    (PlanFinishArgs.mk wAppendPlanned).taskState.folderId = wAppendRaw.folderId ∧
    (PlanFinishArgs.mk wAppendPlanned).taskState.umid = wAppendRaw.umid ∧
    (PlanFinishArgs.mk wAppendPlanned).taskState.messageInfo = wAppendRaw.messageInfo ∧
    (PlanFinishArgs.mk wAppendPlanned).taskState.relPriority = wAppendRaw.relPriority :=
  (claim_C9_append_plan wAppendRaw).2 ⟨wAppendPlanned⟩ (by decide)

/-- C6: re-weighting a heap node to a new key decreases the key in place when
the new key is strictly smaller (the node keeps its identity and the live set
is unchanged), deletes the node and inserts a fresh node with the new key and
the same value when the new key is strictly larger, and leaves everything
unchanged when the keys are equal. -/
theorem claim_C6_reweight (s : TaskPriorities) (nid : Nat) (node : HeapNode)
    (newKey : Int) (hn : s.prioritizedTasks.node? nid = some node)
    (hwf : s.prioritizedTasks.WFarena) :
    (newKey < node.key →
      (s.reprioritizeHeapNode nid newKey).prioritizedTasks.node? nid
        = some ⟨node.nodeId, newKey, node.value⟩ ∧
      (s.reprioritizeHeapNode nid newKey).prioritizedTasks.live
        = s.prioritizedTasks.live) ∧
    (node.key < newKey →
      (s.reprioritizeHeapNode nid newKey).prioritizedTasks.live
        = (s.prioritizedTasks.live.erase nid) ++ [s.prioritizedTasks.nextNodeId] ∧
      (s.reprioritizeHeapNode nid newKey).prioritizedTasks.node?
          s.prioritizedTasks.nextNodeId
        = some ⟨s.prioritizedTasks.nextNodeId, newKey, node.value⟩) ∧
    (newKey = node.key → s.reprioritizeHeapNode nid newKey = s) := by
  have hid : node.nodeId = nid := node?_nodeId _ _ _ hn
  refine ⟨?_, ?_, ?_⟩
  · intro hlt
    have hs1 : s.reprioritizeHeapNode nid newKey
        = { s with prioritizedTasks := s.prioritizedTasks.decreaseKey nid newKey } := by
      rw [reprioritize_eq s nid node _ hn, if_pos hlt]
    constructor
    · rw [hs1]
      show (s.prioritizedTasks.decreaseKey nid newKey).node? nid = _
      rw [node?_decreaseKey, hn]
      simp [hid]
    · rw [hs1]
      rfl
  · intro hgt
    have hs1 : s.reprioritizeHeapNode nid newKey
        = { s with prioritizedTasks :=
              ((s.prioritizedTasks.deleteNode nid).insert newKey node.value).1 } := by
      rw [reprioritize_eq s nid node _ hn,
          if_neg (not_lt.mpr (le_of_lt hgt)), if_pos hgt]
    constructor
    · rw [hs1]
      rfl
    · rw [hs1]
      exact node?_insert_new (s.prioritizedTasks.deleteNode nid) hwf newKey node.value
  · intro heq
    rw [reprioritize_eq s nid node _ hn,
        if_neg (by rw [heq]; exact lt_irrefl _),
        if_neg (by rw [← heq]; exact lt_irrefl _)]

/-- C6 witness: the decrease branch applied at the concrete one-node state,
lowering the key from -4 to -9. -/
theorem claim_C6_reweight_witness :
    (wSoloState.reprioritizeHeapNode 0 (-9)).prioritizedTasks.node? 0
      = some ⟨0, -9, wSolo⟩ ∧
    (wSoloState.reprioritizeHeapNode 0 (-9)).prioritizedTasks.live
      = wSoloState.prioritizedTasks.live :=
  (claim_C6_reweight wSoloState 0 ⟨0, -4, wSolo⟩ (-9) (by decide)
    (by intro n hn; fin_cases hn; decide)).1 (by decide)

/-- C3: for every task or marker handed to prioritizeTaskThing, the heap key
assigned to its node is the negation of its effective priority: its
relativePriority (0 when absent) plus the sum of the recorded summed boost
weights of its priority tags (0 for an unrecorded tag).  For a fresh id the
inserted node carries that key; for an id already in the map, the live node
holding the id carries that key afterwards. -/
theorem claim_C3_key_assignment (s : TaskPriorities) (t : TaskThing)
    (hwf : s.prioritizedTasks.WFarena) :
    (effectivePriority s t
      = (t.relPri).getD 0
        + (t.effectiveTags.map
            (fun tg => (mapGet? s.summedPriorityTags tg).getD 0)).sum) ∧
    (mapGet? s.taskIdToHeapNode t.id = none →
      (s.prioritizeTaskThing t).prioritizedTasks.node? s.prioritizedTasks.nextNodeId
        = some ⟨s.prioritizedTasks.nextNodeId, -(effectivePriority s t), t⟩ ∧
      s.prioritizedTasks.nextNodeId
        ∈ (s.prioritizeTaskThing t).prioritizedTasks.live) ∧
    (∀ nid node, mapGet? s.taskIdToHeapNode t.id = some nid →
      s.prioritizedTasks.node? nid = some node →
      node.value.id = t.id →
      ∃ nid1 node1,
        (s.prioritizeTaskThing t).prioritizedTasks.node? nid1 = some node1 ∧
        node1.key = -(effectivePriority s t) ∧
        node1.value.id = t.id) := by
  refine ⟨?_, ?_, ?_⟩
  · unfold effectivePriority
    rw [computePriority_eq_sum]
  · intro hnone
    rw [prioritize_fresh_eq s t hnone]
    constructor
    · rw [(setup_frame _ t _).1]
      exact node?_insert_new s.prioritizedTasks hwf _ t
    · rw [(setup_frame _ t _).1]
      simp [FibonacciHeap.insert]
  · intro nid node hm hnode hidt
    have hid : node.nodeId = nid := node?_nodeId _ _ _ hnode
    have hnidlt : nid < s.prioritizedTasks.nextNodeId := by
      have h1 := hwf node (node?_mem _ _ _ hnode)
      rwa [hid] at h1
    rcases lt_trichotomy (-(effectivePriority s t)) node.key with hlt | heq | hgt
    · have hs1 : s.reprioritizeHeapNode nid (-(effectivePriority s t))
          = { s with prioritizedTasks :=
                s.prioritizedTasks.decreaseKey nid (-(effectivePriority s t)) } := by
        rw [reprioritize_eq s nid node _ hnode, if_pos hlt]
      have hn1 : (s.reprioritizeHeapNode nid
            (-(effectivePriority s t))).prioritizedTasks.node? nid
          = some ⟨nid, -(effectivePriority s t), node.value⟩ := by
        rw [hs1]
        show (s.prioritizedTasks.decreaseKey nid (-(effectivePriority s t))).node? nid = _
        rw [node?_decreaseKey, hnode]
        simp [hid]
      rw [prioritize_existing_eq s t nid hm _ hn1]
      refine ⟨nid, ⟨nid, -(effectivePriority s t), t⟩, ?_, rfl, rfl⟩
      rw [(setup_frame _ t _).1]
      show (((s.reprioritizeHeapNode nid
          (-(effectivePriority s t))).cleanupTaskPriorityTracking
            (HeapNode.mk nid (-(effectivePriority s t)) node.value).value
            nid).prioritizedTasks.setValue nid t).node? nid = _
      rw [node?_setValue, (cleanup_frame _ _ _).1, hn1]
      simp
    · have hs1 : s.reprioritizeHeapNode nid (-(effectivePriority s t)) = s := by
        rw [reprioritize_eq s nid node _ hnode,
            if_neg (by rw [heq]; exact lt_irrefl _),
            if_neg (by rw [← heq]; exact lt_irrefl _)]
      have hn1 : (s.reprioritizeHeapNode nid
            (-(effectivePriority s t))).prioritizedTasks.node? nid = some node := by
        rw [hs1]; exact hnode
      rw [prioritize_existing_eq s t nid hm _ hn1]
      refine ⟨nid, ⟨node.nodeId, node.key, t⟩, ?_, heq.symm, rfl⟩
      rw [(setup_frame _ t _).1]
      show (((s.reprioritizeHeapNode nid
          (-(effectivePriority s t))).cleanupTaskPriorityTracking
            node.value nid).prioritizedTasks.setValue nid t).node? nid = _
      rw [node?_setValue, (cleanup_frame _ _ _).1, hn1]
      simp [hid]
    · have hs1 : s.reprioritizeHeapNode nid (-(effectivePriority s t))
          = { s with prioritizedTasks :=
                ((s.prioritizedTasks.deleteNode nid).insert
                  (-(effectivePriority s t)) node.value).1 } := by
        rw [reprioritize_eq s nid node _ hnode,
            if_neg (not_lt.mpr (le_of_lt hgt)), if_pos hgt]
      have hn1 : (s.reprioritizeHeapNode nid
            (-(effectivePriority s t))).prioritizedTasks.node? nid = some node := by
        rw [hs1]
        show ((s.prioritizedTasks.deleteNode nid).insert
            (-(effectivePriority s t)) node.value).1.node? nid = _
        exact node?_insert_old _ _ _ _ _ hnode
      have hn2 : (s.reprioritizeHeapNode nid
            (-(effectivePriority s t))).prioritizedTasks.node?
              s.prioritizedTasks.nextNodeId
          = some ⟨s.prioritizedTasks.nextNodeId, -(effectivePriority s t), node.value⟩ := by
        rw [hs1]
        exact node?_insert_new (s.prioritizedTasks.deleteNode nid) hwf _ _
      rw [prioritize_existing_eq s t nid hm _ hn1]
      refine ⟨s.prioritizedTasks.nextNodeId,
        ⟨s.prioritizedTasks.nextNodeId, -(effectivePriority s t), node.value⟩,
        ?_, rfl, by rw [hidt]⟩
      rw [(setup_frame _ t _).1]
      show (((s.reprioritizeHeapNode nid
          (-(effectivePriority s t))).cleanupTaskPriorityTracking
            node.value nid).prioritizedTasks.setValue nid t).node?
          s.prioritizedTasks.nextNodeId = _
      rw [node?_setValue, (cleanup_frame _ _ _).1, hn2]
      simp [(Nat.ne_of_lt hnidlt).symm]

/-- C3 witness: the fresh-insert branch of the theorem applied at the concrete
one-task state while inserting a marker with one boosted tag (the summed map
of that state is empty, so the sum contributes zero and the assigned key is
the negated relative priority). -/
theorem claim_C3_key_assignment_witness :
    (effectivePriority wSoloState wC3Marker
      = (wC3Marker.relPri).getD 0
        + (wC3Marker.effectiveTags.map
            (fun tg => (mapGet? wSoloState.summedPriorityTags tg).getD 0)).sum) ∧
    (wSoloState.prioritizeTaskThing wC3Marker).prioritizedTasks.node?
        wSoloState.prioritizedTasks.nextNodeId
      = some ⟨wSoloState.prioritizedTasks.nextNodeId,
          -(effectivePriority wSoloState wC3Marker), wC3Marker⟩ ∧
    wSoloState.prioritizedTasks.nextNodeId
      ∈ (wSoloState.prioritizeTaskThing wC3Marker).prioritizedTasks.live :=
  ⟨(claim_C3_key_assignment wSoloState wC3Marker
      (by intro n hn; fin_cases hn; decide)).1,
   (claim_C3_key_assignment wSoloState wC3Marker
      (by intro n hn; fin_cases hn; decide)).2.1 (by decide)⟩

/-! ## C1 machinery: runs of fresh prioritizations and pop ordering -/

/-- The base effective priority of a task thing when no boosts are recorded:
its relative priority, defaulting to zero. -/
def baseEff (t : TaskThing) : Int := (t.relPri).getD 0

/-- The heap arena produced by prioritizing a list of fresh tasks starting at
node id k: the i-th task gets node id k+i and key -(baseEff). -/
def buildNodes : Nat → List TaskThing → List HeapNode
  | _, [] => []
  | k, t :: ts => ⟨k, -(baseEff t), t⟩ :: buildNodes (k + 1) ts

/-- The id map produced by prioritizing a list of fresh tasks starting at node
id k. -/
def buildIdMap : Nat → List TaskThing → List (Nat × Nat)
  | _, [] => []
  | k, t :: ts => (t.id, k) :: buildIdMap (k + 1) ts

@[simp] theorem insert_fst_nodes (h : FibonacciHeap) (k : Int) (v : TaskThing) :
    (h.insert k v).1.nodes = h.nodes ++ [⟨h.nextNodeId, k, v⟩] := rfl

@[simp] theorem insert_fst_live (h : FibonacciHeap) (k : Int) (v : TaskThing) :
    (h.insert k v).1.live = h.live ++ [h.nextNodeId] := rfl

@[simp] theorem insert_fst_next (h : FibonacciHeap) (k : Int) (v : TaskThing) :
    (h.insert k v).1.nextNodeId = h.nextNodeId + 1 := rfl

@[simp] theorem insert_snd (h : FibonacciHeap) (k : Int) (v : TaskThing) :
    (h.insert k v).2 = h.nextNodeId := rfl

theorem computePriority_empty (s : TaskPriorities) (tags : List Tag)
    (h : s.summedPriorityTags = []) : s.computePriorityForTags tags = 0 := by
  rw [computePriority_eq_sum]
  apply List.sum_eq_zero
  intro x hx
  rw [List.mem_map] at hx
  obtain ⟨tg, _, hxe⟩ := hx
  rw [← hxe]
  simp [h, mapGet?]

theorem effectivePriority_of_empty (s : TaskPriorities) (t : TaskThing)
    (h : s.summedPriorityTags = []) : effectivePriority s t = baseEff t := by
  unfold effectivePriority baseEff
  rw [computePriority_empty s t.effectiveTags h, add_zero]

theorem mapSet_of_get_none {α β : Type} [DecidableEq α] (m : List (α × β))
    (k : α) (v : β) (h : mapGet? m k = none) : mapSet m k v = m ++ [(k, v)] := by
  have hf : m.find? (fun p => decide (p.1 = k)) = none := by
    unfold mapGet? at h
    exact Option.map_eq_none'.mp h
  simp [mapSet, hf]

theorem buildIdMap_get_none (k : Nat) (ts : List TaskThing) (x : Nat)
    (h : x ∉ ts.map TaskThing.id) : mapGet? (buildIdMap k ts) x = none := by
  induction ts generalizing k with
  | nil => rfl
  | cons t rest ih =>
    rw [List.map_cons, List.mem_cons, not_or] at h
    obtain ⟨h1, h2⟩ := h
    show mapGet? ((t.id, k) :: buildIdMap (k + 1) rest) x = none
    unfold mapGet?
    rw [List.find?_cons_of_neg _ (by simpa using fun e => h1 e.symm)]
    exact ih (k + 1) h2

theorem buildNodes_append (k : Nat) (ts : List TaskThing) (t : TaskThing) :
    buildNodes k (ts ++ [t])
      = buildNodes k ts ++ [⟨k + ts.length, -(baseEff t), t⟩] := by
  induction ts generalizing k with
  | nil => simp [buildNodes]
  | cons u us ih =>
    show HeapNode.mk k (-(baseEff u)) u :: buildNodes (k + 1) (us ++ [t]) = _
    rw [ih (k + 1)]
    simp [buildNodes, Nat.add_comm, Nat.add_assoc, Nat.add_left_comm]

theorem buildIdMap_append (k : Nat) (ts : List TaskThing) (t : TaskThing) :
    buildIdMap k (ts ++ [t]) = buildIdMap k ts ++ [(t.id, k + ts.length)] := by
  induction ts generalizing k with
  | nil => simp [buildIdMap]
  | cons u us ih =>
    show (u.id, k) :: buildIdMap (k + 1) (us ++ [t]) = _
    rw [ih (k + 1)]
    simp [buildIdMap, Nat.add_comm, Nat.add_assoc, Nat.add_left_comm]

theorem mem_buildNodes {n : HeapNode} (k : Nat) (things : List TaskThing)
    (h : n ∈ buildNodes k things) :
    n.key = -(baseEff n.value) ∧
    ∃ i, n.nodeId = k + i ∧ things[i]? = some n.value := by
  induction things generalizing k with
  | nil => cases h
  | cons t ts ih =>
    rcases List.mem_cons.mp h with h1 | h2
    · subst h1
      refine ⟨rfl, 0, by simp, ?_⟩
      simp
    · obtain ⟨hk, i, hni, hgi⟩ := ih (k + 1) h2
      refine ⟨hk, i + 1, ?_, ?_⟩
      · rw [hni]
        omega
      · rw [List.getElem?_cons_succ]
        exact hgi

theorem runPrioritize_fields (things : List TaskThing)
    (h : (things.map TaskThing.id).Nodup) :
    (runPrioritize things).prioritizedTasks.nodes = buildNodes 0 things ∧
    (runPrioritize things).prioritizedTasks.live = List.range things.length ∧
    (runPrioritize things).prioritizedTasks.nextNodeId = things.length ∧
    (runPrioritize things).taskIdToHeapNode = buildIdMap 0 things ∧
    (runPrioritize things).summedPriorityTags = [] := by
  induction things using List.reverseRecOn with
  | nil => exact ⟨rfl, rfl, rfl, rfl, rfl⟩
  | append_singleton ts t ih =>
    rw [List.map_append, List.nodup_append] at h
    obtain ⟨h1, _, hdisj⟩ := h
    have hnotin : t.id ∉ ts.map TaskThing.id := fun hm => hdisj hm (by simp)
    obtain ⟨e1, e2, e3, e4, e5⟩ := ih h1
    have hstep : runPrioritize (ts ++ [t]) = (runPrioritize ts).prioritizeTaskThing t := by
      unfold runPrioritize
      rw [List.foldl_append]
      rfl
    have hnone : mapGet? (runPrioritize ts).taskIdToHeapNode t.id = none := by
      rw [e4]; exact buildIdMap_get_none 0 ts t.id hnotin
    have heff : effectivePriority (runPrioritize ts) t = baseEff t :=
      effectivePriority_of_empty _ _ e5
    rw [hstep, prioritize_fresh_eq _ t hnone]
    refine ⟨?_, ?_, ?_, ?_, ?_⟩
    · rw [(setup_frame _ t _).1]
      show ((runPrioritize ts).prioritizedTasks.insert
          (-(effectivePriority (runPrioritize ts) t)) t).1.nodes = _
      rw [insert_fst_nodes, e1, e3, heff, buildNodes_append]
      simp
    · rw [(setup_frame _ t _).1]
      show ((runPrioritize ts).prioritizedTasks.insert
          (-(effectivePriority (runPrioritize ts) t)) t).1.live = _
      rw [insert_fst_live, e2, e3]
      simp [List.range_succ]
    · rw [(setup_frame _ t _).1]
      show ((runPrioritize ts).prioritizedTasks.insert
          (-(effectivePriority (runPrioritize ts) t)) t).1.nextNodeId = _
      rw [insert_fst_next, e3]
      simp
    · rw [(setup_frame _ t _).2.1]
      show mapSet (runPrioritize ts).taskIdToHeapNode t.id
          (runPrioritize ts).prioritizedTasks.nextNodeId = _
      rw [e3, e4, mapSet_of_get_none _ _ _ (by rw [← e4]; exact hnone),
          buildIdMap_append]
      simp
    · rw [(setup_frame _ t _).2.2]
      exact e5

theorem nodeBefore_iff (n m : HeapNode) :
    nodeBefore n m = true
      ↔ (n.key < m.key ∨ (n.key = m.key ∧ n.nodeId < m.nodeId)) := by
  simp [nodeBefore]

theorem findMinNode_eq_none {l : List HeapNode} (h : findMinNode l = none) :
    l = [] := by
  cases l with
  | nil => rfl
  | cons n rest =>
    unfold findMinNode at h
    cases hrec : findMinNode rest with
    | none =>
      simp only [hrec] at h
      exact Option.noConfusion h
    | some m0 =>
      simp only [hrec] at h
      by_cases hb : nodeBefore m0 n = true
      · rw [if_pos hb] at h; cases h
      · rw [if_neg hb] at h; cases h

theorem findMinNode_mem {l : List HeapNode} {m : HeapNode}
    (h : findMinNode l = some m) : m ∈ l := by
  induction l generalizing m with
  | nil => cases h
  | cons n rest ih =>
    unfold findMinNode at h
    cases hrec : findMinNode rest with
    | none =>
      simp only [hrec] at h
      rw [← Option.some.inj h]
      exact List.mem_cons_self _ _
    | some m0 =>
      simp only [hrec] at h
      by_cases hb : nodeBefore m0 n = true
      · rw [if_pos hb] at h
        rw [← Option.some.inj h]
        exact List.mem_cons_of_mem _ (ih hrec)
      · rw [if_neg hb] at h
        rw [← Option.some.inj h]
        exact List.mem_cons_self _ _

theorem findMinNode_min {l : List HeapNode} {m : HeapNode}
    (h : findMinNode l = some m) :
    ∀ x ∈ l, m.key < x.key ∨ (m.key = x.key ∧ m.nodeId ≤ x.nodeId) := by
  induction l generalizing m with
  | nil => cases h
  | cons n rest ih =>
    unfold findMinNode at h
    cases hrec : findMinNode rest with
    | none =>
      simp only [hrec] at h
      have hrest := findMinNode_eq_none hrec
      subst hrest
      rw [← Option.some.inj h]
      intro x hx
      rcases List.mem_cons.mp hx with h3 | h3
      · subst h3
        exact Or.inr ⟨rfl, Nat.le_refl _⟩
      · cases h3
    | some m0 =>
      simp only [hrec] at h
      by_cases hb : nodeBefore m0 n = true
      · rw [if_pos hb] at h
        rw [← Option.some.inj h]
        intro x hx
        rcases List.mem_cons.mp hx with h3 | h3
        · subst h3
          rcases (nodeBefore_iff m0 x).mp hb with h1 | ⟨h1, h2⟩
          · exact Or.inl h1
          · exact Or.inr ⟨h1, Nat.le_of_lt h2⟩
        · exact ih hrec x h3
      · rw [if_neg hb] at h
        rw [← Option.some.inj h]
        have hb1 : ¬(m0.key < n.key ∨ (m0.key = n.key ∧ m0.nodeId < n.nodeId)) := by
          rw [← nodeBefore_iff]
          exact hb
        push_neg at hb1
        intro x hx
        rcases List.mem_cons.mp hx with h3 | h3
        · subst h3
          exact Or.inr ⟨rfl, Nat.le_refl _⟩
        · rcases ih hrec x h3 with h1 | ⟨h1, h2⟩
          · exact Or.inl (lt_of_le_of_lt hb1.1 h1)
          · rcases lt_or_eq_of_le hb1.1 with h3a | h3a
            · exact Or.inl (h3a.trans_eq h1)
            · exact Or.inr ⟨h3a.trans h1, (hb1.2 h3a.symm).trans h2⟩

/-- What a successful pop does: it extracts the FIFO-minimal live node, leaves
the arena and the summed boosts alone, and removes the node from the live
set. -/
theorem pop_spec (s : TaskPriorities) (t : TaskThing) (s1 : TaskPriorities)
    (hpop : s.popNextAvailableTask = Except.ok (t, s1)) :
    ∃ m, findMinNode s.prioritizedTasks.liveNodes = some m ∧ t = m.value ∧
      s1.prioritizedTasks.nodes = s.prioritizedTasks.nodes ∧
      s1.prioritizedTasks.live = s.prioritizedTasks.live.erase m.nodeId ∧
      s1.summedPriorityTags = s.summedPriorityTags := by
  unfold TaskPriorities.popNextAvailableTask FibonacciHeap.extractMinimum at hpop
  cases hmin : findMinNode s.prioritizedTasks.liveNodes with
  | none =>
    simp only [hmin] at hpop
    exact Except.noConfusion hpop
  | some m =>
    simp only [hmin] at hpop
    refine ⟨m, rfl, ?_⟩
    have hinj := Except.ok.inj hpop
    rw [Prod.mk.injEq] at hinj
    obtain ⟨ht, hs⟩ := hinj
    rw [← hs, ← ht]
    refine ⟨rfl, ?_, ?_, ?_⟩
    · exact (congrArg FibonacciHeap.nodes (cleanup_frame _ _ _).1).trans rfl
    · exact (congrArg FibonacciHeap.live (cleanup_frame _ _ _).1).trans rfl
    · exact ((cleanup_frame _ _ _).2.2).trans rfl

/-- The pop-phase invariant for a run over fresh distinct ids: the arena is
the built one and no boosts are recorded. -/
def goodPop (things : List TaskThing) (s : TaskPriorities) : Prop :=
  s.prioritizedTasks.nodes = buildNodes 0 things ∧ s.summedPriorityTags = []

theorem goodPop_run (things : List TaskThing)
    (h : (things.map TaskThing.id).Nodup) : goodPop things (runPrioritize things) := by
  obtain ⟨e1, _, _, _, e5⟩ := runPrioritize_fields things h
  exact ⟨e1, e5⟩

theorem goodPop_pop (things : List TaskThing) (s : TaskPriorities)
    (t : TaskThing) (s1 : TaskPriorities) (hg : goodPop things s)
    (hpop : s.popNextAvailableTask = Except.ok (t, s1)) :
    goodPop things s1 := by
  obtain ⟨m, _, _, hn, _, hs⟩ := pop_spec s t s1 hpop
  exact ⟨hn.trans hg.1, hs.trans hg.2⟩

theorem goodPop_popK (things : List TaskThing) (s : TaskPriorities) (k : Nat)
    (hg : goodPop things s) : goodPop things (popK s k) := by
  induction k generalizing s with
  | zero => exact hg
  | succ k ih =>
    show goodPop things (popK s (k + 1))
    unfold popK
    cases hp : s.popNextAvailableTask with
    | ok p => exact ih p.2 (goodPop_pop things s p.1 p.2 hg hp)
    | error e => exact hg

/-- The state after popping once from the two-task scenario run, used by the
C1 witness. -/
def wC1After : TaskPriorities :=
  match (runPrioritize [scenarioTask1, scenarioTask2]).popNextAvailableTask with
  | Except.ok p => p.2
  | Except.error _ => TaskPriorities.init

/-- C1 counterexample: submit task 1 at priority 5, re-prioritize task 1 down
to priority 1, submit task 2 at priority 3; the next pop returns task 2
(effective priority 3) while the index still holds a live entry for task 1
whose stored record has effective priority 5 — the delete-and-reinsert path of
the re-prioritization left the superseded record in the heap, so the pop is
not maximal among the entries present. -/
theorem claim_C1_counterexample :
    (c1CexState.popNextAvailableTask.toOption.map (fun p => TaskThing.id p.1)
      = some 2) ∧
    effectivePriority c1CexState otherTask3 = 3 ∧
    c1CexState.prioritizedTasks.liveNodes.map
        (fun n => (n.value.id, effectivePriority c1CexState n.value))
      = [(1, 5), (2, 3)] := by decide

/-- C1 (amended): for every sequence of prioritizeTaskThing calls on
tasks/markers with pairwise-distinct ids (pure fresh inserts, no
re-prioritization of an existing id) followed by popNextAvailableTask calls,
each successful pop returns the entry whose effective priority is maximal
among the entries currently in the index, and among entries of equal effective
priority the one submitted earliest (its node id is its submission index); in
particular Scenario A — priorities 5, 1, 5 — pops task1, task3, task2. -/
theorem claim_C1_heap_ordering :
    (∀ (things : List TaskThing), (things.map TaskThing.id).Nodup →
      ∀ (k : Nat) (t : TaskThing) (s1 : TaskPriorities),
        (popK (runPrioritize things) k).popNextAvailableTask = Except.ok (t, s1) →
        ∃ m ∈ (popK (runPrioritize things) k).prioritizedTasks.liveNodes,
          m.value = t ∧ things[m.nodeId]? = some t ∧
          ∀ n ∈ (popK (runPrioritize things) k).prioritizedTasks.liveNodes,
            things[n.nodeId]? = some n.value ∧
            (effectivePriority (popK (runPrioritize things) k) n.value
                < effectivePriority (popK (runPrioritize things) k) t ∨
             (effectivePriority (popK (runPrioritize things) k) n.value
                = effectivePriority (popK (runPrioritize things) k) t ∧
              m.nodeId ≤ n.nodeId))) ∧
    (popList (runPrioritize [scenarioTask1, scenarioTask2, scenarioTask3]) 3).map
        TaskThing.id = [1, 3, 2] := by
  constructor
  · intro things hnd k t s1 hpop
    have hg : goodPop things (popK (runPrioritize things) k) :=
      goodPop_popK things _ k (goodPop_run things hnd)
    obtain ⟨m, hmin, ht, _, _, _⟩ :=
      pop_spec (popK (runPrioritize things) k) t s1 hpop
    have hmem : m ∈ (popK (runPrioritize things) k).prioritizedTasks.liveNodes :=
      findMinNode_mem hmin
    have hmins := findMinNode_min hmin
    have hlive_build :
        ∀ n ∈ (popK (runPrioritize things) k).prioritizedTasks.liveNodes,
          n ∈ buildNodes 0 things := by
      intro n hn
      have hmem2 : n ∈ (popK (runPrioritize things) k).prioritizedTasks.nodes :=
        List.mem_of_mem_filter hn
      rwa [hg.1] at hmem2
    obtain ⟨hkeym, i, hidm, hgetm⟩ := mem_buildNodes 0 things (hlive_build m hmem)
    have hidm0 : m.nodeId = i := by omega
    refine ⟨m, hmem, ht.symm, ?_, ?_⟩
    · rw [hidm0, ht]
      exact hgetm
    · intro n hn
      obtain ⟨hkeyn, j, hidn, hgetn⟩ := mem_buildNodes 0 things (hlive_build n hn)
      have hidn0 : n.nodeId = j := by omega
      refine ⟨by rw [hidn0]; exact hgetn, ?_⟩
      have heffn : effectivePriority (popK (runPrioritize things) k) n.value
          = baseEff n.value := effectivePriority_of_empty _ _ hg.2
      have hefft : effectivePriority (popK (runPrioritize things) k) t
          = baseEff t := effectivePriority_of_empty _ _ hg.2
      rw [heffn, hefft, ht]
      rcases hmins n hn with h1 | ⟨h1, h2⟩
      · left
        rw [hkeym, hkeyn] at h1
        omega
      · right
        refine ⟨?_, h2⟩
        rw [hkeym, hkeyn] at h1
        omega
  · decide

/-- C1 witness: the amended theorem applied to the concrete two-task run
(priorities 5 and 1), before the first pop, which returns task 1. -/
theorem claim_C1_heap_ordering_witness :
    ∃ m ∈ (popK (runPrioritize [scenarioTask1, scenarioTask2])
        0).prioritizedTasks.liveNodes,
      m.value = scenarioTask1 ∧
      [scenarioTask1, scenarioTask2][m.nodeId]? = some scenarioTask1 ∧
      ∀ n ∈ (popK (runPrioritize [scenarioTask1, scenarioTask2])
          0).prioritizedTasks.liveNodes,
        [scenarioTask1, scenarioTask2][n.nodeId]? = some n.value ∧
        (effectivePriority (popK (runPrioritize [scenarioTask1, scenarioTask2]) 0)
            n.value
          < effectivePriority (popK (runPrioritize [scenarioTask1, scenarioTask2]) 0)
              scenarioTask1 ∨
         (effectivePriority (popK (runPrioritize [scenarioTask1, scenarioTask2]) 0)
            n.value
          = effectivePriority (popK (runPrioritize [scenarioTask1, scenarioTask2]) 0)
              scenarioTask1 ∧
          m.nodeId ≤ n.nodeId)) :=
  claim_C1_heap_ordering.1 [scenarioTask1, scenarioTask2] (by decide) 0
    scenarioTask1 wC1After (by rfl)

end Gelam
